import Mathlib

/-!
Verification development for the `linalg-wasm` numeric core
(`src/linalg-wasm/src/lib.rs`): the LinUCB bandit model updater
(`update_bandit_model`), the batch UCB score evaluator (`get_ucb_values_bulk`),
and the cosine-similarity routines (`cosine_similarity`,
`calculate_similarity_matrix`).

Modelling conventions:

 - An `f64` value is modelled by `F64`: either a finite value, represented
   exactly by a rational number (`F64.num q`), or `F64.nf`, which collapses the
   non-finite values NaN and ±Infinity.  Arithmetic on finite values is exact
   rational arithmetic (binary64 rounding and overflow are outside the scope of
   the properties considered, which are stated exactly on dyadic inputs or up
   to tolerance); any operation with a non-finite operand yields a non-finite
   result, and division by zero is non-finite, matching IEEE 754 up to the
   collapse of the non-finite values.  In particular the source's
   `!denominator.is_finite()` guard can never fire on inputs that already
   passed the finiteness preconditions, because exact rational arithmetic
   cannot overflow; the reachable guard is the `|denom| < 1e-12` one.
 - `f64::sqrt` has no exact rational counterpart, so every definition that
   needs it is parametrised by a function `sq : ℚ → ℚ` standing for the
   square root.  Properties whose truth depends on genuine square-root facts
   (such as `sq s * sq s = s`) take those facts as hypotheses at the concrete
   points where they are used.
 - The wasm/JS serialisation boundary (serde) is outside the embedded core;
   the embedding starts from the already-deserialised typed values.
 - The distinct Rust error strings are abstracted to the error taxonomy of the
   specification (`LinalgError`); each constructor is noted at its use site.
 - `ndarray`'s `dot` panics (a wasm trap, not a returned error) when shapes are
   incompatible; an execution that panics is modelled by `none` in an
   `Option`-wrapped result.
-/

/-- Model of an `f64`: an exact finite rational, or a collapsed non-finite
value (NaN / +Infinity / -Infinity). -/
inductive F64 where
  | num : ℚ → F64
  | nf : F64
deriving DecidableEq

namespace F64

/-- Model of `f64::is_finite`. -/
def isFinite : F64 → Bool
  | num _ => true
  | nf => false

/-- Model of `f64` addition: exact on finite values, non-finite absorbing. -/
def add : F64 → F64 → F64
  | num a, num b => num (a + b)
  | _, _ => nf

/-- Model of `f64` subtraction. -/
def sub : F64 → F64 → F64
  | num a, num b => num (a - b)
  | _, _ => nf

/-- Model of `f64` multiplication. -/
def mul : F64 → F64 → F64
  | num a, num b => num (a * b)
  | _, _ => nf

/-- Model of `f64` division; division by zero is non-finite (±Infinity or NaN
in IEEE 754, collapsed here). -/
def div : F64 → F64 → F64
  | num a, num b => if b = 0 then nf else num (a / b)
  | _, _ => nf

/-- Model of `f64::abs`. -/
def abs : F64 → F64
  | num a => num |a|
  | nf => nf

/-- Model of `f64::sqrt`, parametrised by the rational square-root stand-in
`sq`; NaN and infinities stay non-finite. -/
def sqrtF (sq : ℚ → ℚ) : F64 → F64
  | num a => num (sq a)
  | nf => nf

/-- Underlying rational of a finite value (junk value `0` on `nf`; only used
beneath finiteness guards). -/
def toQ : F64 → ℚ
  | num a => a
  | nf => 0

end F64

/-- Left-fold sum starting from `0.0`, as Rust's iterator `sum()` computes it. -/
def sumF (l : List F64) : F64 := l.foldl F64.add (F64.num 0)

/-- Dot product of two `f64` vectors (`zip`, `map` multiply, `sum`). -/
def dotF (a b : List F64) : F64 := sumF (List.zipWith F64.mul a b)

/-- Dot product of two exact rational vectors. -/
def dotQ (a b : List ℚ) : ℚ := (List.zipWith (· * ·) a b).foldl (· + ·) 0

/-- Row `i` of a row-major flattened `d×d` rational matrix. -/
def rowQ (P : List ℚ) (d i : Nat) : List ℚ :=
  (List.range d).map fun k => P.getD (i * d + k) 0

/-- Column `j` of a row-major flattened `d×d` rational matrix. -/
def colQ (P : List ℚ) (d j : Nat) : List ℚ :=
  (List.range d).map fun k => P.getD (k * d + j) 0

/-- Matrix–vector product `P · v` for a flattened `d×d` rational matrix. -/
def matVecQ (P : List ℚ) (d : Nat) (v : List ℚ) : List ℚ :=
  (List.range d).map fun i => dotQ (rowQ P d i) v

/-- Vector–matrix product `v^T · P` for a flattened `d×d` rational matrix. -/
def vecMatQ (v : List ℚ) (P : List ℚ) (d : Nat) : List ℚ :=
  (List.range d).map fun j => dotQ v (colQ P d j)

/-- Row `i` of a row-major flattened `d×d` matrix of `f64` values. -/
def rowF (A : List F64) (d i : Nat) : List F64 :=
  (List.range d).map fun k => A.getD (i * d + k) F64.nf

/-- Column `j` of a row-major flattened `d×d` matrix of `f64` values. -/
def colF (A : List F64) (d j : Nat) : List F64 :=
  (List.range d).map fun k => A.getD (k * d + j) F64.nf

/-- Matrix–vector product `A · v` over `f64` values (ndarray `a_inv.dot(&b)`). -/
def matVecF (A : List F64) (d : Nat) (v : List F64) : List F64 :=
  (List.range d).map fun i => dotF (rowF A d i) v

/-- Vector–matrix product `v^T · A` over `f64` values (ndarray `x.dot(&a_inv)`). -/
def vecMatF (v : List F64) (A : List F64) (d : Nat) : List F64 :=
  (List.range d).map fun j => dotF v (colF A d j)

/-- The `BanditModel` struct: flattened `d×d` inverse covariance `a_inv`,
reward-weighted sum `b`, and declared dimension. -/
structure BanditModel where
  a_inv : List F64
  b : List F64
  dimension : Nat
deriving DecidableEq

/-- The `Article` struct: an identifier paired with an embedding vector. -/
structure Article where
  article_id : String
  embedding : List F64
deriving DecidableEq

/-- The `UcbResult` struct: an identifier paired with its UCB score. -/
structure UcbResult where
  article_id : String
  ucb : F64
deriving DecidableEq

/-- Error taxonomy of the specification; each Rust error string is mapped to
its taxonomy class. -/
inductive LinalgError where
  | invalidDimension
  | shapeMismatch
  | nonFiniteInput
  | numericalInstability
  | emptyInput
deriving DecidableEq

deriving instance DecidableEq for Except

/-- Exact rationals underlying a list of finite `f64` values (applied only
beneath the finiteness guards of the updater). -/
def toQs (l : List F64) : List ℚ := l.map F64.toQ

/-- Sherman–Morrison denominator `1 + x^T·P·x` (`denominator` in the source). -/
def smDenom (P x : List ℚ) (d : Nat) : ℚ := 1 + dotQ x (matVecQ P d x)

/-- Updated inverse covariance `P - outer(P·x, x^T·P) / denom`, flattened
row-major: entry `k = i*d + j` is `P[k] - Px[i] * xP[j] / denom`. -/
def smNewP (P x : List ℚ) (d : Nat) : List ℚ :=
  (List.range (d * d)).map fun k =>
    P.getD k 0 - (matVecQ P d x).getD (k / d) 0 * (vecMatQ x P d).getD (k % d) 0 / smDenom P x d

/-- The epsilon `EPS = 1e-12` guarding the Sherman–Morrison denominator. -/
def smEps : ℚ := 1 / 1000000000000

/-- Model of `update_bandit_model`: precondition checks in source order, then
the Sherman–Morrison rank-one inverse update and the reward-weighted-sum
update.  The source's `!denominator.is_finite()` guard is always false in
exact rational arithmetic over finite inputs and is subsumed by the modelling
convention above; the reachable instability guard is `|denom| < EPS`. -/
def update_bandit_model (model : BanditModel) (embedding : List F64) (reward : F64) :
    Except LinalgError BanditModel :=
  if model.dimension = 0 then .error .invalidDimension
  else if model.a_inv.length ≠ model.dimension * model.dimension then .error .shapeMismatch
  else if model.b.length ≠ model.dimension then .error .shapeMismatch
  else if model.a_inv.any (fun v => !v.isFinite) then .error .nonFiniteInput
  else if model.b.any (fun v => !v.isFinite) then .error .nonFiniteInput
  else if embedding.any (fun v => !v.isFinite) then .error .nonFiniteInput
  else if embedding.length ≠ model.dimension then .error .shapeMismatch
  else if |smDenom (toQs model.a_inv) (toQs embedding) model.dimension| < smEps then
    .error .numericalInstability
  else if model.b.length ≠ (embedding.map fun xi => F64.mul xi reward).length then
    .error .shapeMismatch
  else
    .ok { a_inv := (smNewP (toQs model.a_inv) (toQs embedding) model.dimension).map F64.num,
          b := List.zipWith F64.add model.b (embedding.map fun xi => F64.mul xi reward),
          dimension := model.dimension }

/-- Exploration coefficient `alpha = base_alpha + (1.0 - user_ctr) * 0.5` with
`base_alpha = 0.5`, exactly as the source computes it (no clamping). -/
def alphaF (user_ctr : F64) : F64 :=
  F64.add (F64.num (1/2)) (F64.mul (F64.sub (F64.num 1) user_ctr) (F64.num (1/2)))

/-- Per-article UCB score: `term1 = x·hatTheta`, `x_t_a_inv = x^T·A_inv`,
`term2_sqrt = x_t_a_inv·x`, `term2 = alpha * sqrt(|term2_sqrt|)`, result
`term1 + term2`. -/
def ucbScore (sq : ℚ → ℚ) (a_inv : List F64) (d : Nat) (hatTheta : List F64) (alpha : F64)
    (x : List F64) : F64 :=
  F64.add (dotF x hatTheta)
    (F64.mul alpha (F64.sqrtF sq (F64.abs (dotF (vecMatF x a_inv d) x))))

/-- Model of `get_ucb_values_bulk`: rejects dimension zero, rejects an
`a_inv` that cannot be reshaped to `d×d` (ndarray `from_shape` error), and
never validates `b`; `a_inv.dot(&b)` with `b.len() != d` panics in ndarray,
modelled as `none`.  Articles whose embedding length differs from `d` are
skipped; the rest are scored in input order with `hat_theta` and `alpha`
computed once for the batch. -/
def get_ucb_values_bulk (sq : ℚ → ℚ) (model : BanditModel) (articles : List Article)
    (user_ctr : F64) : Option (Except LinalgError (List UcbResult)) :=
  if model.dimension = 0 then some (.error .invalidDimension)
  else if model.a_inv.length ≠ model.dimension * model.dimension then some (.error .shapeMismatch)
  else if model.b.length ≠ model.dimension then none
  else
    some (.ok (articles.foldl
      (fun acc a =>
        if a.embedding.length ≠ model.dimension then acc
        else acc ++
          [{ article_id := a.article_id,
             ucb := ucbScore sq model.a_inv model.dimension
               (matVecF model.a_inv model.dimension model.b) (alphaF user_ctr) a.embedding }])
      []))

/-- Spec-side exploration coefficient, written from the specification's words:
`alpha = 0.5 + (1 - userClickRate) * 0.5`, with no clamping for
`userClickRate` outside `[0,1]`. -/
def specAlpha (user_ctr : F64) : F64 :=
  F64.add (F64.num (1/2)) (F64.mul (F64.sub (F64.num 1) user_ctr) (F64.num (1/2)))

/-- Spec-side score, written from the specification's words:
`thetaHat = inverseCovariance · rewardWeightedSum`; `term1 = embedding · thetaHat`;
`xP = embedding^T · inverseCovariance`; `term2Sqrt = xP · embedding`;
`term2 = alpha * sqrt(|term2Sqrt|)`; `score = term1 + term2`. -/
def specUcbScore (sq : ℚ → ℚ) (model : BanditModel) (x : List F64) (user_ctr : F64) : F64 :=
  F64.add (dotF x (matVecF model.a_inv model.dimension model.b))
    (F64.mul (specAlpha user_ctr)
      (F64.sqrtF sq (F64.abs (dotF (vecMatF x model.a_inv model.dimension) x))))

/-- Magnitude of a vector: `sqrt` of the left-fold sum of squares, exactly as
the source computes `vec.iter().map(|&a| a * a).sum::<f64>().sqrt()`. -/
def magnitudeF (sq : ℚ → ℚ) (v : List F64) : F64 :=
  F64.sqrtF sq (sumF (v.map fun a => F64.mul a a))

/-- Model of `cosine_similarity`: length mismatch and emptiness are errors;
a zero magnitude yields `0.0`; otherwise `dot / (mag1 * mag2)`. -/
def cosine_similarity (sq : ℚ → ℚ) (vec1 vec2 : List F64) : Except LinalgError F64 :=
  if vec1.length ≠ vec2.length then .error .shapeMismatch
  else if vec1.isEmpty then .error .emptyInput
  else if magnitudeF sq vec1 = F64.num 0 ∨ magnitudeF sq vec2 = F64.num 0 then .ok (F64.num 0)
  else .ok (F64.div (dotF vec1 vec2) (F64.mul (magnitudeF sq vec1) (magnitudeF sq vec2)))

/-- Spec-side cosine value, written from the specification's words: cosine
similarity `(a·b) / (|a| * |b|)`, defined as `0.0` when either magnitude is
exactly zero. -/
def specCosineValue (sq : ℚ → ℚ) (a b : List F64) : F64 :=
  if magnitudeF sq a = F64.num 0 ∨ magnitudeF sq b = F64.num 0 then F64.num 0
  else F64.div (dotF a b) (F64.mul (magnitudeF sq a) (magnitudeF sq b))

/-- Value written at both mirrored positions for the pair `(vec1, vec2)` in
`calculate_similarity_matrix`: `0.0` on length mismatch, an empty `vec1`, or a
zero magnitude, else the cosine similarity. -/
def pairVal (sq : ℚ → ℚ) (v1 v2 : List F64) : F64 :=
  if v1.length ≠ v2.length ∨ v1.isEmpty then F64.num 0
  else if magnitudeF sq v1 = F64.num 0 ∨ magnitudeF sq v2 = F64.num 0 then F64.num 0
  else F64.div (dotF v1 v2) (F64.mul (magnitudeF sq v1) (magnitudeF sq v2))

/-- Read entry `(i, j)` of a matrix represented as a list of row lists
(out-of-range reads default to `0.0`, the initialisation value). -/
def get2 (m : List (List F64)) (i j : Nat) : F64 := (m.getD i []).getD j (F64.num 0)

/-- Write entry `(i, j)` of a matrix represented as a list of row lists
(`similarity_matrix[i][j] = v`). -/
def setM (m : List (List F64)) (i j : Nat) (v : F64) : List (List F64) :=
  m.set i ((m.getD i []).set j v)

/-- One inner-loop iteration of `calculate_similarity_matrix`:
`similarity_matrix[i][j] = v; similarity_matrix[j][i] = v;`. -/
def simStep (sq : ℚ → ℚ) (vectors : List (List F64)) (i : Nat) (m : List (List F64))
    (j : Nat) : List (List F64) :=
  setM (setM m i j (pairVal sq (vectors.getD i []) (vectors.getD j []))) j i
    (pairVal sq (vectors.getD i []) (vectors.getD j []))

/-- Model of `calculate_similarity_matrix`: an `n×n` matrix of `0.0` is
filled by the double loop `for i in 0..n { for j in i..n { ... } }`, writing
each pair value at `(i, j)` and mirrored at `(j, i)`. -/
def calculate_similarity_matrix (sq : ℚ → ℚ) (vectors : List (List F64)) : List (List F64) :=
  (List.range vectors.length).foldl
    (fun m i => (List.range' i (vectors.length - i)).foldl (simStep sq vectors i) m)
    (List.replicate vectors.length (List.replicate vectors.length (F64.num 0)))

/-- A list-of-rows matrix is `n×n`: `n` rows, each of length `n`. -/
def IsSquareM (m : List (List F64)) (n : Nat) : Prop :=
  m.length = n ∧ ∀ i, i < n → (m.getD i []).length = n

/-- Reading a mapped range at an in-bounds index. -/
theorem getD_map_range {α : Type} (f : Nat → α) (d : α) {n k : Nat} (h : k < n) :
    ((List.range n).map f).getD k d = f k := by
  simp [List.getD_eq_getElem?_getD, List.getElem?_range h]

/-- Reading a list of boxed rationals at an in-bounds index. -/
theorem getD_map_num (l : List ℚ) {k : Nat} (h : k < l.length) :
    (l.map F64.num).getD k F64.nf = F64.num (l.getD k 0) := by
  simp [List.getD_eq_getElem?_getD, List.getElem?_eq_getElem h]

/-- Unboxing commutes with indexing (`nf` unboxes to the default `0`). -/
theorem toQs_getD (l : List F64) (k : Nat) :
    (toQs l).getD k 0 = (l.getD k F64.nf).toQ := by
  induction l generalizing k with
  | nil => simp [toQs, F64.toQ]
  | cons a t ih =>
    cases k with
    | zero => simp [toQs]
    | succ k => simpa [toQs] using ih k

/-- The rational dot product is commutative. -/
theorem dotQ_comm (a b : List ℚ) : dotQ a b = dotQ b a := by
  unfold dotQ
  rw [List.zipWith_comm_of_comm _ (fun x y => mul_comm x y)]

/-- Index arithmetic: a row-major entry index is in range. -/
theorem mul_add_lt {i j d : Nat} (hi : i < d) (hj : j < d) : i * d + j < d * d :=
  calc i * d + j < i * d + d := Nat.add_lt_add_left hj _
    _ = (i + 1) * d := (Nat.succ_mul i d).symm
    _ ≤ d * d := Nat.mul_le_mul_right d hi

/-- Row recovery from a row-major entry index. -/
theorem idx_div {i j d : Nat} (hd : d ≠ 0) (hj : j < d) : (i * d + j) / d = i := by
  rw [Nat.mul_comm i d, Nat.mul_add_div (Nat.pos_of_ne_zero hd), Nat.div_eq_of_lt hj,
    Nat.add_zero]

/-- Column recovery from a row-major entry index. -/
theorem idx_mod {i j d : Nat} (hj : j < d) : (i * d + j) % d = j := by
  rw [Nat.mul_comm i d, Nat.mul_add_mod, Nat.mod_eq_of_lt hj]

/-- Entry `(i, j)` of the Sherman–Morrison updated inverse covariance. -/
theorem smNewP_getD {P x : List ℚ} {d i j : Nat} (hd : d ≠ 0) (hi : i < d) (hj : j < d) :
    (smNewP P x d).getD (i * d + j) 0 =
      P.getD (i * d + j) 0 -
        (matVecQ P d x).getD i 0 * (vecMatQ x P d).getD j 0 / smDenom P x d := by
  unfold smNewP
  rw [getD_map_range _ _ (mul_add_lt hi hj), idx_div hd hj, idx_mod hj]

/-- For a symmetric flattened matrix, column `j` equals row `j`. -/
theorem colQ_eq_rowQ_of_symm {P : List ℚ} {d : Nat}
    (hs : ∀ i j, i < d → j < d → P.getD (i * d + j) 0 = P.getD (j * d + i) 0)
    {j : Nat} (hj : j < d) : colQ P d j = rowQ P d j := by
  unfold colQ rowQ
  refine List.map_congr_left fun k hk => ?_
  rw [List.mem_range] at hk
  exact hs k j hk hj

/-- For a symmetric flattened matrix, `x^T·P` agrees with `P·x` entrywise. -/
theorem vecMat_eq_matVec_of_symm {P x : List ℚ} {d : Nat}
    (hs : ∀ i j, i < d → j < d → P.getD (i * d + j) 0 = P.getD (j * d + i) 0)
    {j : Nat} (hj : j < d) :
    (vecMatQ x P d).getD j 0 = (matVecQ P d x).getD j 0 := by
  unfold vecMatQ matVecQ
  rw [getD_map_range _ _ hj, getD_map_range _ _ hj, colQ_eq_rowQ_of_symm hs hj, dotQ_comm]

/-- The scoring loop of `get_ucb_values_bulk` pushes, in input order, exactly
the articles whose embedding length matches the dimension. -/
theorem bulk_loop_eq (sq : ℚ → ℚ) (aInv : List F64) (d : Nat) (ht : List F64) (al : F64)
    (articles : List Article) :
    ∀ acc : List UcbResult,
      articles.foldl
        (fun acc a =>
          if a.embedding.length ≠ d then acc
          else acc ++
            [{ article_id := a.article_id, ucb := ucbScore sq aInv d ht al a.embedding }]) acc =
      acc ++ (articles.filter fun a => a.embedding.length == d).map
        (fun a => { article_id := a.article_id, ucb := ucbScore sq aInv d ht al a.embedding }) := by
  induction articles with
  | nil => intro acc; simp
  | cons a t ih =>
    intro acc
    by_cases h : a.embedding.length = d
    · rw [List.foldl_cons, if_neg (not_not_intro h), ih, List.filter_cons_of_pos (by simp [h])]
      simp
    · rw [List.foldl_cons, if_pos h, ih, List.filter_cons_of_neg (by simp [h])]

/-- Characterisation of a successful update: all guards passed and the
returned model is the Sherman–Morrison update. -/
theorem update_ok_elim {model : BanditModel} {embedding : List F64} {reward : F64}
    {m' : BanditModel} (hok : update_bandit_model model embedding reward = .ok m') :
    model.dimension ≠ 0 ∧ model.b.length = model.dimension ∧
      embedding.length = model.dimension ∧
      m' = { a_inv := (smNewP (toQs model.a_inv) (toQs embedding) model.dimension).map F64.num,
             b := List.zipWith F64.add model.b (embedding.map fun xi => F64.mul xi reward),
             dimension := model.dimension } := by
  unfold update_bandit_model at hok
  iterate 9 (split at hok <;> try exact Except.noConfusion hok)
  rename_i hd hA hb hfa hfb hfx hlen hden hdef
  injection hok with h
  exact ⟨hd, not_ne_iff.mp hb, not_ne_iff.mp hlen, h.symm⟩

/-- A list with only finite elements fails the `any non-finite` check. -/
theorem any_not_finite_false {l : List F64} (h : ∀ v ∈ l, v.isFinite) :
    (l.any fun v => !v.isFinite) = false := by
  rw [List.any_eq_false]
  intro x hx
  simpa using h x hx

/-- C1: for dimension 2, identity inverse covariance `[1,0,0,1]`, reward sum
`[0,0]`, feature `[1,0]` and reward `1.0`, `update_bandit_model` succeeds and
returns inverse covariance `[0.5,0,0,1]` and reward sum `[1,0]` (the
Sherman–Morrison denominator being 2); in exact arithmetic the claim's
approximate equality is exact. -/
theorem c1_update_concrete :
    update_bandit_model
      { a_inv := [F64.num 1, F64.num 0, F64.num 0, F64.num 1],
        b := [F64.num 0, F64.num 0], dimension := 2 }
      [F64.num 1, F64.num 0] (F64.num 1) =
    .ok { a_inv := [F64.num (1/2), F64.num 0, F64.num 0, F64.num 1],
          b := [F64.num 1, F64.num 0], dimension := 2 } := by
  norm_num [update_bandit_model, smNewP, smDenom, smEps, toQs, dotQ, matVecQ, vecMatQ,
    rowQ, colQ, F64.mul, F64.add, F64.toQ, F64.isFinite, List.range_succ]

/-- C5: a successful `update_bandit_model` preserves the model dimension, and
the returned arrays have lengths `d*d` and `d`. -/
theorem c5_update_shape (model : BanditModel) (embedding : List F64) (reward : F64)
    (m' : BanditModel) (hok : update_bandit_model model embedding reward = .ok m') :
    m'.dimension = model.dimension ∧
      m'.a_inv.length = model.dimension * model.dimension ∧
      m'.b.length = model.dimension := by
  obtain ⟨hd, hb, hlen, rfl⟩ := update_ok_elim hok
  refine ⟨rfl, ?_, ?_⟩
  · simp [smNewP]
  · simp [List.length_zipWith, hb, hlen]

/-- Witness for C5 at the concrete dimension-2 update of C1. -/
theorem c5_update_shape_witness :
    ({ a_inv := [F64.num (1/2), F64.num 0, F64.num 0, F64.num 1],
       b := [F64.num 1, F64.num 0], dimension := 2 } : BanditModel).dimension = 2 ∧
      ({ a_inv := [F64.num (1/2), F64.num 0, F64.num 0, F64.num 1],
         b := [F64.num 1, F64.num 0], dimension := 2 } : BanditModel).a_inv.length = 2 * 2 ∧
      ({ a_inv := [F64.num (1/2), F64.num 0, F64.num 0, F64.num 1],
         b := [F64.num 1, F64.num 0], dimension := 2 } : BanditModel).b.length = 2 :=
  c5_update_shape
    { a_inv := [F64.num 1, F64.num 0, F64.num 0, F64.num 1],
      b := [F64.num 0, F64.num 0], dimension := 2 }
    [F64.num 1, F64.num 0] (F64.num 1) _
    (by norm_num [update_bandit_model, smNewP, smDenom, smEps, toQs, dotQ, matVecQ, vecMatQ,
      rowQ, colQ, F64.mul, F64.add, F64.toQ, F64.isFinite, List.range_succ])

/-- C3: once all preconditions pass, a Sherman–Morrison denominator of absolute
value below `1e-12` makes `update_bandit_model` return the
`NumericalInstability` error, so no updated model is produced.  (The other
half of the source guard, a non-finite denominator, cannot occur in the exact
arithmetic of the model: finite inputs give a finite rational denominator.) -/
theorem c3_instability_rejection (model : BanditModel) (embedding : List F64) (reward : F64)
    (hd : model.dimension ≠ 0)
    (hA : model.a_inv.length = model.dimension * model.dimension)
    (hb : model.b.length = model.dimension)
    (hfa : ∀ v ∈ model.a_inv, v.isFinite)
    (hfb : ∀ v ∈ model.b, v.isFinite)
    (hfx : ∀ v ∈ embedding, v.isFinite)
    (hlen : embedding.length = model.dimension)
    (hden : |smDenom (toQs model.a_inv) (toQs embedding) model.dimension| < smEps) :
    update_bandit_model model embedding reward = .error .numericalInstability := by
  unfold update_bandit_model
  rw [if_neg hd, if_neg (not_not_intro hA), if_neg (not_not_intro hb),
    any_not_finite_false hfa, any_not_finite_false hfb, any_not_finite_false hfx]
  simp [hlen, hden]

/-- Witness for C3: dimension 1, `P = [-1]`, `x = [1]` gives denominator
`1 + (1 * -1 * 1) = 0`, rejected as numerically unstable. -/
theorem c3_instability_rejection_witness :
    update_bandit_model { a_inv := [F64.num (-1)], b := [F64.num 0], dimension := 1 }
      [F64.num 1] (F64.num 0) = .error .numericalInstability :=
  c3_instability_rejection _ _ _ (by norm_num) (by norm_num) (by norm_num)
    (by simp [F64.isFinite]) (by simp [F64.isFinite]) (by simp [F64.isFinite])
    (by norm_num)
    (by norm_num [smDenom, smEps, toQs, dotQ, matVecQ, rowQ, F64.toQ, List.range_succ])

/-- C4: the precondition checks of `update_bandit_model` run in source order
with first failure winning — (1) a zero dimension gives `InvalidDimension`
regardless of everything else; (2) with a nonzero dimension, a wrong-length
`inverseCovariance` gives `ShapeMismatch`; (3) then a wrong-length
`rewardWeightedSum` gives `ShapeMismatch`; (4) then a non-finite value in any
of `inverseCovariance`, `rewardWeightedSum` or `featureVector` gives
`NonFiniteInput` regardless of the feature vector's length; (5) only then is
the feature vector's length checked, giving `ShapeMismatch`.  In particular a
feature vector that both has the wrong length and contains a non-finite value
is reported as `NonFiniteInput`, not `ShapeMismatch`. -/
theorem c4_precondition_order (model : BanditModel) (embedding : List F64) (reward : F64) :
    (model.dimension = 0 →
      update_bandit_model model embedding reward = .error .invalidDimension) ∧
    (model.dimension ≠ 0 → model.a_inv.length ≠ model.dimension * model.dimension →
      update_bandit_model model embedding reward = .error .shapeMismatch) ∧
    (model.dimension ≠ 0 → model.a_inv.length = model.dimension * model.dimension →
      model.b.length ≠ model.dimension →
      update_bandit_model model embedding reward = .error .shapeMismatch) ∧
    (model.dimension ≠ 0 → model.a_inv.length = model.dimension * model.dimension →
      model.b.length = model.dimension →
      ((model.a_inv.any fun v => !v.isFinite) ∨ (model.b.any fun v => !v.isFinite) ∨
        (embedding.any fun v => !v.isFinite)) →
      update_bandit_model model embedding reward = .error .nonFiniteInput) ∧
    (model.dimension ≠ 0 → model.a_inv.length = model.dimension * model.dimension →
      model.b.length = model.dimension →
      (∀ v ∈ model.a_inv, v.isFinite) → (∀ v ∈ model.b, v.isFinite) →
      (∀ v ∈ embedding, v.isFinite) →
      embedding.length ≠ model.dimension →
      update_bandit_model model embedding reward = .error .shapeMismatch) := by
  refine ⟨fun hd => ?_, fun hd hA => ?_, fun hd hA hb => ?_,
    fun hd hA hb hnf => ?_, fun hd hA hb hfa hfb hfx hlen => ?_⟩
  · unfold update_bandit_model
    rw [if_pos hd]
  · unfold update_bandit_model
    rw [if_neg hd, if_pos hA]
  · unfold update_bandit_model
    rw [if_neg hd, if_neg (not_not_intro hA), if_pos hb]
  · unfold update_bandit_model
    rw [if_neg hd, if_neg (not_not_intro hA), if_neg (not_not_intro hb)]
    rcases hnf with ha | hbb | hx
    · rw [if_pos ha]
    · by_cases ha : (model.a_inv.any fun v => !v.isFinite) = true
      · rw [if_pos ha]
      · rw [if_neg ha, if_pos hbb]
    · by_cases ha : (model.a_inv.any fun v => !v.isFinite) = true
      · rw [if_pos ha]
      · by_cases hbb : (model.b.any fun v => !v.isFinite) = true
        · rw [if_neg ha, if_pos hbb]
        · rw [if_neg ha, if_neg hbb, if_pos hx]
  · unfold update_bandit_model
    rw [if_neg hd, if_neg (not_not_intro hA), if_neg (not_not_intro hb),
      any_not_finite_false hfa, any_not_finite_false hfb, any_not_finite_false hfx]
    simp [hlen]

/-- Witness for C4: a feature vector of wrong length containing NaN yields
`NonFiniteInput` rather than `ShapeMismatch`. -/
theorem c4_precondition_order_witness :
    update_bandit_model { a_inv := [F64.num 1], b := [F64.num 0], dimension := 1 }
      [F64.nf, F64.num 2] (F64.num 0) = .error .nonFiniteInput :=
  (c4_precondition_order { a_inv := [F64.num 1], b := [F64.num 0], dimension := 1 }
      [F64.nf, F64.num 2] (F64.num 0)).2.2.2.1
    (by norm_num) (by norm_num) (by norm_num)
    (Or.inr (Or.inr (by simp [F64.isFinite])))

/-- C8: if the input inverse covariance is symmetric, the inverse covariance
returned by a successful update is symmetric — exactly, hence in particular
within the claimed `1e-9` tolerance. -/
theorem c8_symmetry_preservation (model : BanditModel) (embedding : List F64) (reward : F64)
    (m' : BanditModel) (hok : update_bandit_model model embedding reward = .ok m')
    (hsymm : ∀ i j, i < model.dimension → j < model.dimension →
      model.a_inv.getD (i * model.dimension + j) F64.nf =
        model.a_inv.getD (j * model.dimension + i) F64.nf)
    (i j : Nat) (hi : i < model.dimension) (hj : j < model.dimension) :
    ∃ qa qb : ℚ,
      m'.a_inv.getD (i * model.dimension + j) F64.nf = F64.num qa ∧
      m'.a_inv.getD (j * model.dimension + i) F64.nf = F64.num qb ∧
      |qa - qb| ≤ 1 / 1000000000 := by
  obtain ⟨hd, hb, hlen, rfl⟩ := update_ok_elim hok
  have hsP : ∀ a c, a < model.dimension → c < model.dimension →
      (toQs model.a_inv).getD (a * model.dimension + c) 0 =
        (toQs model.a_inv).getD (c * model.dimension + a) 0 := by
    intro a c ha hc
    rw [toQs_getD, toQs_getD, hsymm a c ha hc]
  have hlenP :
      (smNewP (toQs model.a_inv) (toQs embedding) model.dimension).length =
        model.dimension * model.dimension := by
    simp [smNewP]
  refine ⟨(smNewP (toQs model.a_inv) (toQs embedding) model.dimension).getD
      (i * model.dimension + j) 0,
    (smNewP (toQs model.a_inv) (toQs embedding) model.dimension).getD
      (j * model.dimension + i) 0, ?_, ?_, ?_⟩
  · exact getD_map_num _ (hlenP ▸ mul_add_lt hi hj)
  · exact getD_map_num _ (hlenP ▸ mul_add_lt hj hi)
  · rw [smNewP_getD hd hi hj, smNewP_getD hd hj hi,
      vecMat_eq_matVec_of_symm hsP hj, vecMat_eq_matVec_of_symm hsP hi, hsP i j hi hj]
    have h0 :
        (toQs model.a_inv).getD (j * model.dimension + i) 0 -
            (matVecQ (toQs model.a_inv) model.dimension (toQs embedding)).getD i 0 *
              (matVecQ (toQs model.a_inv) model.dimension (toQs embedding)).getD j 0 /
              smDenom (toQs model.a_inv) (toQs embedding) model.dimension -
          ((toQs model.a_inv).getD (j * model.dimension + i) 0 -
            (matVecQ (toQs model.a_inv) model.dimension (toQs embedding)).getD j 0 *
              (matVecQ (toQs model.a_inv) model.dimension (toQs embedding)).getD i 0 /
              smDenom (toQs model.a_inv) (toQs embedding) model.dimension) = 0 := by
      ring
    rw [h0, abs_zero]
    norm_num

/-- Witness for C8 at the concrete dimension-2 update of C1, entries (0,1)
and (1,0). -/
theorem c8_symmetry_preservation_witness :
    ∃ qa qb : ℚ,
      ({ a_inv := [F64.num (1/2), F64.num 0, F64.num 0, F64.num 1],
         b := [F64.num 1, F64.num 0], dimension := 2 } : BanditModel).a_inv.getD
          (0 * 2 + 1) F64.nf = F64.num qa ∧
      ({ a_inv := [F64.num (1/2), F64.num 0, F64.num 0, F64.num 1],
         b := [F64.num 1, F64.num 0], dimension := 2 } : BanditModel).a_inv.getD
          (1 * 2 + 0) F64.nf = F64.num qb ∧
      |qa - qb| ≤ 1 / 1000000000 :=
  c8_symmetry_preservation
    { a_inv := [F64.num 1, F64.num 0, F64.num 0, F64.num 1],
      b := [F64.num 0, F64.num 0], dimension := 2 }
    [F64.num 1, F64.num 0] (F64.num 1) _
    (by norm_num [update_bandit_model, smNewP, smDenom, smEps, toQs, dotQ, matVecQ, vecMatQ,
      rowQ, colQ, F64.mul, F64.add, F64.toQ, F64.isFinite, List.range_succ])
    (by intro a c ha hc; interval_cases a <;> interval_cases c <;> rfl)
    0 1 (by norm_num) (by norm_num)

/-- Successful batch scoring: with a nonzero dimension, a well-shaped `a_inv`
and a well-shaped `b`, the call returns the filtered, in-order scored list. -/
theorem bulk_ok_eq (sq : ℚ → ℚ) (model : BanditModel) (articles : List Article)
    (user_ctr : F64) (hd : model.dimension ≠ 0)
    (hA : model.a_inv.length = model.dimension * model.dimension)
    (hb : model.b.length = model.dimension) :
    get_ucb_values_bulk sq model articles user_ctr =
      some (.ok ((articles.filter fun a => a.embedding.length == model.dimension).map fun a =>
        { article_id := a.article_id,
          ucb := ucbScore sq model.a_inv model.dimension
            (matVecF model.a_inv model.dimension model.b) (alphaF user_ctr) a.embedding })) := by
  unfold get_ucb_values_bulk
  rw [if_neg hd, if_neg (not_not_intro hA), if_neg (not_not_intro hb), bulk_loop_eq]
  simp

/-- C6: `get_ucb_values_bulk` succeeds, omits exactly the candidates whose
embedding length differs from the model dimension, and returns the remaining
scores in input order (the result is the in-order filter of the input,
mapped to scores). -/
theorem c6_batch_order (sq : ℚ → ℚ) (model : BanditModel) (articles : List Article)
    (user_ctr : F64) (hd : model.dimension ≠ 0)
    (hA : model.a_inv.length = model.dimension * model.dimension)
    (hb : model.b.length = model.dimension) :
    get_ucb_values_bulk sq model articles user_ctr =
      some (.ok ((articles.filter fun a => a.embedding.length == model.dimension).map fun a =>
        { article_id := a.article_id,
          ucb := ucbScore sq model.a_inv model.dimension
            (matVecF model.a_inv model.dimension model.b) (alphaF user_ctr) a.embedding })) :=
  bulk_ok_eq sq model articles user_ctr hd hA hb

/-- Witness for C6: candidates `[A(dim-ok), B(dim-mismatch), C(dim-ok)]`
produce exactly `[scoreA, scoreC]` in that order. -/
theorem c6_batch_order_witness :
    get_ucb_values_bulk (fun q => q) { a_inv := [F64.num 1], b := [F64.num 1], dimension := 1 }
      [{ article_id := "A", embedding := [F64.num 1] },
       { article_id := "B", embedding := [F64.num 1, F64.num 2] },
       { article_id := "C", embedding := [F64.num 2] }] (F64.num 1) =
    some (.ok [{ article_id := "A", ucb := F64.num (3/2) },
               { article_id := "C", ucb := F64.num 4 }]) := by
  rw [c6_batch_order (fun q => q) _ _ _ (by norm_num) (by norm_num) (by norm_num)]
  norm_num [ucbScore, alphaF, matVecF, vecMatF, rowF, colF, dotF, sumF, List.filter_cons,
    beq_iff_eq, F64.mul, F64.add, F64.sub, F64.abs, F64.sqrtF, List.range_succ]

/-- C2: for every candidate whose embedding matches the dimension, the batch
call succeeds and its result contains that candidate scored by the spec
formula — `thetaHat = inverseCovariance·rewardWeightedSum` shared across the
batch, `term1 = embedding·thetaHat`, `term2 = alpha * sqrt(|xP·embedding|)`
with `xP = embedding^T·inverseCovariance`, and
`alpha = 0.5 + (1 - userClickRate) * 0.5` unclamped. -/
theorem c2_bulk_score_formula (sq : ℚ → ℚ) (model : BanditModel) (articles : List Article)
    (user_ctr : F64) (a : Article) (hd : model.dimension ≠ 0)
    (hA : model.a_inv.length = model.dimension * model.dimension)
    (hb : model.b.length = model.dimension)
    (ha : a ∈ articles) (hlen : a.embedding.length = model.dimension) :
    ∃ res, get_ucb_values_bulk sq model articles user_ctr = some (.ok res) ∧
      { article_id := a.article_id,
        ucb := specUcbScore sq model a.embedding user_ctr } ∈ res := by
  refine ⟨_, bulk_ok_eq sq model articles user_ctr hd hA hb, ?_⟩
  refine List.mem_map.mpr ⟨a, List.mem_filter.mpr ⟨ha, by simp [hlen]⟩, ?_⟩
  rfl

/-- Witness for C2 with `userClickRate = 2` outside `[0,1]`: alpha is
`0.5 + (1 - 2) * 0.5 = 0`, unclamped. -/
theorem c2_bulk_score_formula_witness :
    ∃ res,
      get_ucb_values_bulk (fun q => q)
        { a_inv := [F64.num 1], b := [F64.num 1], dimension := 1 }
        [{ article_id := "A", embedding := [F64.num 1] }] (F64.num 2) = some (.ok res) ∧
      { article_id := "A",
        ucb := specUcbScore (fun q => q)
          { a_inv := [F64.num 1], b := [F64.num 1], dimension := 1 }
          [F64.num 1] (F64.num 2) } ∈ res :=
  c2_bulk_score_formula (fun q => q) _ _ (F64.num 2) _ (by norm_num) (by norm_num)
    (by norm_num) (List.Mem.head _) (by norm_num)

/-- C7: `get_ucb_values_bulk` never validates the length of
`rewardWeightedSum`; past the dimension and `a_inv` shape checks, a `b` whose
length differs from the dimension makes `a_inv.dot(&b)` panic (a wasm trap,
modelled `none`) instead of returning an error value. -/
theorem c7_bulk_b_length_trap (sq : ℚ → ℚ) (model : BanditModel) (articles : List Article)
    (user_ctr : F64) (hd : model.dimension ≠ 0)
    (hA : model.a_inv.length = model.dimension * model.dimension)
    (hb : model.b.length ≠ model.dimension) :
    get_ucb_values_bulk sq model articles user_ctr = none := by
  unfold get_ucb_values_bulk
  rw [if_neg hd, if_neg (not_not_intro hA), if_pos hb]

/-- Witness for C7: dimension 1 with a length-2 `b` traps. -/
theorem c7_bulk_b_length_trap_witness :
    get_ucb_values_bulk (fun q => q)
      { a_inv := [F64.num 1], b := [F64.num 1, F64.num 2], dimension := 1 }
      [{ article_id := "A", embedding := [F64.num 1] }] (F64.num 0) = none :=
  c7_bulk_b_length_trap (fun q => q) _ _ (F64.num 0) (by norm_num) (by norm_num) (by norm_num)

/-- C9: `cosine_similarity` errors `ShapeMismatch` on length mismatch, errors
`EmptyInput` on equal-length empty inputs, and otherwise returns the spec's
cosine value `(a·b)/(|a|*|b|)` — which is `0.0` (not an error) whenever either
magnitude is exactly zero; in particular `similarity([0,0],[1,1]) = 0.0`
whenever the square root maps `0` to `0`. -/
theorem c9_cosine_contract (sq : ℚ → ℚ) (a b : List F64) :
    (a.length ≠ b.length → cosine_similarity sq a b = .error .shapeMismatch) ∧
    (a.length = b.length → a = [] → cosine_similarity sq a b = .error .emptyInput) ∧
    (a.length = b.length → a ≠ [] →
      cosine_similarity sq a b = .ok (specCosineValue sq a b)) ∧
    (sq 0 = 0 →
      cosine_similarity sq [F64.num 0, F64.num 0] [F64.num 1, F64.num 1] = .ok (F64.num 0)) := by
  refine ⟨fun hne => ?_, fun hl he => ?_, fun hl hne => ?_, fun hsq => ?_⟩
  · unfold cosine_similarity
    rw [if_pos hne]
  · unfold cosine_similarity
    rw [if_neg (not_not_intro hl), if_pos (List.isEmpty_eq_true.mpr he)]
  · unfold cosine_similarity specCosineValue
    rw [if_neg (not_not_intro hl), if_neg (by simp [List.isEmpty_eq_true, hne])]
    by_cases hc : magnitudeF sq a = F64.num 0 ∨ magnitudeF sq b = F64.num 0
    · rw [if_pos hc, if_pos hc]
    · rw [if_neg hc, if_neg hc]
  · norm_num [cosine_similarity, magnitudeF, sumF, F64.mul, F64.add, F64.sqrtF, hsq]

/-- Witness for C9: the zero-vector case returns `0.0`, not an error. -/
theorem c9_cosine_contract_witness :
    cosine_similarity (fun _ => 0) [F64.num 0, F64.num 0] [F64.num 1, F64.num 1] =
      .ok (F64.num 0) :=
  (c9_cosine_contract (fun _ => 0) [F64.num 0, F64.num 0] [F64.num 1, F64.num 1]).2.2.2 rfl

/-- Setting then reading the same in-bounds index. -/
theorem getD_set_self {α : Type} (l : List α) {i : Nat} (a d : α) (h : i < l.length) :
    (l.set i a).getD i d = a := by
  simp [List.getD_eq_getElem?_getD, List.getElem?_set_self h]

/-- Setting one index leaves reads at other indices unchanged. -/
theorem getD_set_ne {α : Type} (l : List α) {i p : Nat} (a d : α) (h : i ≠ p) :
    (l.set i a).getD p d = l.getD p d := by
  simp [List.getD_eq_getElem?_getD, List.getElem?_set_ne h]

/-- `setM` preserves squareness. -/
theorem setM_isSquare {m : List (List F64)} {n : Nat} (hm : IsSquareM m n) (i j : Nat)
    (v : F64) : IsSquareM (setM m i j v) n := by
  refine ⟨by simp [setM, hm.1], fun p hp => ?_⟩
  by_cases hip : i = p
  · subst hip
    by_cases hil : i < m.length
    · rw [setM, getD_set_self _ _ _ hil, List.length_set]
      exact hm.2 i hp
    · rw [setM, List.set_eq_of_length_le (Nat.le_of_not_lt hil)]
      exact hm.2 _ hp
  · rw [setM, getD_set_ne _ _ _ hip]
    exact hm.2 p hp

/-- Reading a cell untouched by `setM`. -/
theorem get2_setM_ne {m : List (List F64)} {i j p q : Nat} {v : F64}
    (h : ¬(p = i ∧ q = j)) : get2 (setM m i j v) p q = get2 m p q := by
  unfold get2 setM
  by_cases hpi : p = i
  · subst hpi
    have hqj : q ≠ j := fun hqe => h ⟨rfl, hqe⟩
    by_cases hil : p < m.length
    · rw [getD_set_self _ _ _ hil, getD_set_ne _ _ _ (Ne.symm hqj)]
    · rw [List.set_eq_of_length_le (Nat.le_of_not_lt hil)]
  · rw [getD_set_ne _ _ _ (fun he => hpi he.symm)]

/-- Reading the cell just written by `setM`. -/
theorem get2_setM_self {m : List (List F64)} {n : Nat} (hm : IsSquareM m n) {i j : Nat}
    (hi : i < n) (hj : j < n) (v : F64) : get2 (setM m i j v) i j = v := by
  unfold get2 setM
  rw [getD_set_self _ _ _ (by rw [hm.1]; exact hi),
    getD_set_self _ _ _ (by rw [hm.2 i hi]; exact hj)]

/-- One iteration of the inner loop writes the pair value at `(i, j)` and
`(j, i)` and changes nothing else. -/
theorem get2_simStep {sq : ℚ → ℚ} {vectors : List (List F64)} {n : Nat}
    {m : List (List F64)} (hm : IsSquareM m n) {i j p q : Nat}
    (hi : i < n) (hj : j < n) :
    get2 (simStep sq vectors i m j) p q =
      if p = j ∧ q = i then pairVal sq (vectors.getD i []) (vectors.getD j [])
      else if p = i ∧ q = j then pairVal sq (vectors.getD i []) (vectors.getD j [])
      else get2 m p q := by
  unfold simStep
  by_cases h1 : p = j ∧ q = i
  · obtain ⟨rfl, rfl⟩ := h1
    rw [get2_setM_self (setM_isSquare hm _ _ _) hj hi, if_pos ⟨rfl, rfl⟩]
  · rw [get2_setM_ne h1, if_neg h1]
    by_cases h2 : p = i ∧ q = j
    · obtain ⟨rfl, rfl⟩ := h2
      rw [get2_setM_self hm hi hj, if_pos ⟨rfl, rfl⟩]
    · rw [get2_setM_ne h2, if_neg h2]

/-- The inner loop preserves squareness. -/
theorem foldl_simStep_isSquare {sq : ℚ → ℚ} {vectors : List (List F64)} {i : Nat}
    {n : Nat} (js : List Nat) {m : List (List F64)} (hm : IsSquareM m n) :
    IsSquareM (js.foldl (simStep sq vectors i) m) n := by
  induction js generalizing m with
  | nil => exact hm
  | cons j t ih =>
    exact ih (by unfold simStep; exact setM_isSquare (setM_isSquare hm _ _ _) _ _ _)

/-- Characterisation of the inner loop `for j in js { m[i][j] = w j; m[j][i] = w j }`:
a cell in row `i` holds the pair value of its column, a cell in column `i`
holds the pair value of its row, every other cell is untouched. -/
theorem inner_fold_get2 {sq : ℚ → ℚ} {vectors : List (List F64)} {n i : Nat} (hi : i < n)
    {p q : Nat} :
    ∀ js : List Nat, (∀ j ∈ js, j < n) → ∀ m : List (List F64), IsSquareM m n →
      get2 (js.foldl (simStep sq vectors i) m) p q =
        if p = i ∧ q ∈ js then pairVal sq (vectors.getD i []) (vectors.getD q [])
        else if q = i ∧ p ∈ js then pairVal sq (vectors.getD i []) (vectors.getD p [])
        else get2 m p q := by
  intro js
  induction js with
  | nil => intro _ m _; simp
  | cons j t ih =>
    intro hjs m hm
    have hjn : j < n := hjs j (List.mem_cons_self _ _)
    rw [List.foldl_cons,
      ih (fun x hx => hjs x (List.mem_cons_of_mem _ hx)) _
        (by unfold simStep; exact setM_isSquare (setM_isSquare hm _ _ _) _ _ _),
      get2_simStep hm hi hjn]
    by_cases hpi : p = i <;> by_cases hqi : q = i <;> by_cases hqt : q ∈ t <;>
      by_cases hpt : p ∈ t <;> by_cases hpj : p = j <;> by_cases hqj : q = j <;>
      simp_all [List.mem_cons]

/-- Membership in the inner loop's index range `i..n`. -/
theorem mem_range_from {i n x : Nat} (hle : i ≤ n) :
    x ∈ List.range' i (n - i) ↔ i ≤ x ∧ x < n := by
  rw [List.mem_range']
  constructor
  · rintro ⟨k, hk, rfl⟩
    omega
  · rintro ⟨h1, h2⟩
    exact ⟨x - i, by omega, by omega⟩

/-- Characterisation of the outer loop: after processing the rows in `is`,
cell `(p, q)` holds the pair value of `{p, q}` as soon as `min p q` has been
processed, and is untouched otherwise. -/
theorem outer_fold_get2 {sq : ℚ → ℚ} {vectors : List (List F64)} {n : Nat}
    {p q : Nat} (hp : p < n) (hq : q < n) :
    ∀ is : List Nat, (∀ i ∈ is, i < n) → ∀ m : List (List F64), IsSquareM m n →
      get2 (is.foldl
          (fun m i => (List.range' i (n - i)).foldl (simStep sq vectors i) m) m) p q =
        if min p q ∈ is then
          pairVal sq (vectors.getD (min p q) []) (vectors.getD (max p q) [])
        else get2 m p q := by
  intro is
  induction is with
  | nil => intro _ m _; simp
  | cons i t ih =>
    intro his m hm
    have hin : i < n := his i (List.mem_cons_self _ _)
    rw [List.foldl_cons,
      ih (fun x hx => his x (List.mem_cons_of_mem _ hx)) _ (foldl_simStep_isSquare _ hm),
      inner_fold_get2 hin _
        (fun j hj => ((mem_range_from (Nat.le_of_lt hin)).mp hj).2) m hm]
    simp only [mem_range_from (Nat.le_of_lt hin), List.mem_cons]
    by_cases hmt : min p q ∈ t
    · rw [if_pos hmt, if_pos (Or.inr hmt)]
    · rw [if_neg hmt]
      by_cases hmi : min p q = i
      · rw [if_pos (Or.inl hmi)]
        rcases Nat.le_total p q with hpq | hqp
        · have hpmin : min p q = p := Nat.min_eq_left hpq
          have hqmax : max p q = q := Nat.max_eq_right hpq
          have hpi : p = i := by omega
          rw [if_pos ⟨hpi, by omega, hq⟩, hpmin, hqmax, hpi]
        · have hpmin : min p q = q := Nat.min_eq_right hqp
          have hqmax : max p q = p := Nat.max_eq_left hqp
          have hqi : q = i := by omega
          by_cases hcase : p = i ∧ i ≤ q ∧ q < n
          · rw [if_pos hcase, hpmin, hqmax, hqi, hcase.1]
          · rw [if_neg hcase, if_pos ⟨hqi, by omega, hp⟩, hpmin, hqmax, hqi]
      · have hni : ¬(min p q = i ∨ min p q ∈ t) := by tauto
        rw [if_neg hni,
          if_neg (fun hcl : p = i ∧ i ≤ q ∧ q < n => hmi (by omega)),
          if_neg (fun hcl : q = i ∧ i ≤ p ∧ p < n => hmi (by omega))]

/-- Closed form for `calculate_similarity_matrix`: every in-bounds cell holds
the pair value of its unordered index pair. -/
theorem simMatrix_get2 (sq : ℚ → ℚ) (vectors : List (List F64)) {p q : Nat}
    (hp : p < vectors.length) (hq : q < vectors.length) :
    get2 (calculate_similarity_matrix sq vectors) p q =
      pairVal sq (vectors.getD (min p q) []) (vectors.getD (max p q) []) := by
  unfold calculate_similarity_matrix
  rw [outer_fold_get2 hp hq _ (fun i hi => List.mem_range.mp hi) _
      ⟨by simp, fun i hi => by
        simp [List.getD_eq_getElem?_getD, List.getElem?_replicate_of_lt hi]⟩,
    if_pos (List.mem_range.mpr (lt_of_le_of_lt (Nat.min_le_left p q) hp))]

/-- A mismatched-length or empty pair has pair value `0.0`. -/
theorem pairVal_zero {sq : ℚ → ℚ} {v1 v2 : List F64}
    (h : v1.length ≠ v2.length ∨ v1 = [] ∨ v2 = []) : pairVal sq v1 v2 = F64.num 0 := by
  unfold pairVal
  by_cases hl : v1.length = v2.length
  · have he : v1 = [] := by
      rcases h with h | h | h
      · exact absurd hl h
      · exact h
      · rw [← List.length_eq_zero, hl, h]
        rfl
    rw [if_pos (Or.inr (by simp [he]))]
  · rw [if_pos (Or.inl hl)]

/-- The diagonal pair value of a finite non-zero vector is exactly `1.0` when
the square-root stand-in is exact on its squared magnitude. -/
theorem pairVal_diag {sq : ℚ → ℚ} {v : List F64} {s : ℚ}
    (hs : sumF (v.map fun a => F64.mul a a) = F64.num s)
    (hpos : 0 < s) (hsq : sq s * sq s = s) : pairVal sq v v = F64.num 1 := by
  have hsne : s ≠ 0 := ne_of_gt hpos
  have hne : v ≠ [] := by
    rintro rfl
    rw [show sumF ([].map fun a => F64.mul a a) = F64.num 0 from rfl] at hs
    exact hsne (F64.num.inj hs).symm
  have hmag : magnitudeF sq v = F64.num (sq s) := by
    unfold magnitudeF
    rw [hs]
    rfl
  have hsqne : sq s ≠ 0 := fun h0 => hsne (by rw [← hsq, h0, mul_zero])
  have hdot : dotF v v = F64.num s := by
    unfold dotF
    rw [List.zipWith_same]
    exact hs
  unfold pairVal
  rw [if_neg (by simp [hne]), hmag, if_neg (by simp [hsqne]), hdot]
  show F64.div (F64.num s) (F64.num (sq s * sq s)) = F64.num 1
  rw [hsq]
  simp [F64.div, hsne, div_self hsne]

/-- C10: the similarity matrix is exactly symmetric (the lower triangle is a
mirror copy of the computed upper triangle), mismatched-length or empty pairs
yield `0.0` at both mirrored positions, and a diagonal entry is `1.0` for a
finite non-zero vector whenever the square root is exact on its squared
magnitude. -/
theorem c10_matrix_symmetry (sq : ℚ → ℚ) (vectors : List (List F64)) (i j : Nat)
    (hi : i < vectors.length) (hj : j < vectors.length) :
    get2 (calculate_similarity_matrix sq vectors) i j =
      get2 (calculate_similarity_matrix sq vectors) j i ∧
    ((vectors.getD i []).length ≠ (vectors.getD j []).length ∨
        vectors.getD i [] = [] ∨ vectors.getD j [] = [] →
      get2 (calculate_similarity_matrix sq vectors) i j = F64.num 0 ∧
        get2 (calculate_similarity_matrix sq vectors) j i = F64.num 0) ∧
    (∀ s : ℚ, i = j → sumF ((vectors.getD i []).map fun a => F64.mul a a) = F64.num s →
      0 < s → sq s * sq s = s →
      get2 (calculate_similarity_matrix sq vectors) i j = F64.num 1) := by
  refine ⟨?_, fun h => ?_, fun s hij hs hpos hsq => ?_⟩
  · rw [simMatrix_get2 sq vectors hi hj, simMatrix_get2 sq vectors hj hi,
      Nat.min_comm j i, Nat.max_comm j i]
  · have h' : (vectors.getD (min i j) []).length ≠ (vectors.getD (max i j) []).length ∨
        vectors.getD (min i j) [] = [] ∨ vectors.getD (max i j) [] = [] := by
      rcases Nat.le_total i j with hle | hle
      · rwa [Nat.min_eq_left hle, Nat.max_eq_right hle]
      · rw [Nat.min_eq_right hle, Nat.max_eq_left hle]
        rcases h with h | h | h
        · exact Or.inl (Ne.symm h)
        · exact Or.inr (Or.inr h)
        · exact Or.inr (Or.inl h)
    constructor
    · rw [simMatrix_get2 sq vectors hi hj]
      exact pairVal_zero h'
    · rw [simMatrix_get2 sq vectors hj hi, Nat.min_comm j i, Nat.max_comm j i]
      exact pairVal_zero h'
  · subst hij
    rw [simMatrix_get2 sq vectors hi hi, Nat.min_self, Nat.max_self]
    exact pairVal_diag hs hpos hsq

/-- Witness for C10's diagonal at the single vector `[3,4]` with an exact
square root at `25`. -/
theorem c10_matrix_symmetry_witness :
    get2 (calculate_similarity_matrix (fun q => if q = 25 then 5 else 0)
      [[F64.num 3, F64.num 4]]) 0 0 = F64.num 1 :=
  (c10_matrix_symmetry (fun q => if q = 25 then 5 else 0) [[F64.num 3, F64.num 4]] 0 0
      (by norm_num) (by norm_num)).2.2 25 rfl
    (by norm_num [sumF, F64.mul, F64.add]) (by norm_num) (by norm_num)
